import Mathlib

set_option maxRecDepth 100000

/-!
Verification development for the IR-crawling and scoring subsystem of the
ai-corporate-analyzer repository (src/streamlit_app.py, src/streamlit_app_clean.py).

The Python code is shallowly embedded: pure helper methods become Lean
functions, the network is an explicit environment (a map from URL to an
optional fetched page, where absence models a requests exception or a
non-200 response), and the ambient clock (datetime.now) is an explicit
parameter.  All string work is done on character lists so that every
definition evaluates inside the kernel.
-/

/-- Substring test: models Python's `needle in hay` on str values. -/
def strContains (hay needle : String) : Bool :=
  decide (needle.toList <:+: hay.toList)

/-- ASCII lower-casing of one character.  Models str.lower for the character
range relevant to the keyword tables in the source (ASCII letters; the
Japanese keywords are unaffected by case folding). -/
def lowerChar (c : Char) : Char :=
  if 'A' ≤ c && c ≤ 'Z' then Char.ofNat (c.toNat + 32) else c

/-- Models Python `s.lower()`. -/
def lowerStr (s : String) : String :=
  ⟨s.toList.map lowerChar⟩

/-- Models Python `s[:n]` on str (slice of the first n characters). -/
def takeChars (n : Nat) (s : String) : String :=
  ⟨s.toList.take n⟩

/-- Calendar date; models the (year, month, day) part of a Python datetime.
The ambient clock `datetime.now()` is passed around explicitly as a value of
this type. -/
structure Date where
  year : Nat
  month : Nat
  day : Nat
deriving DecidableEq, Repr

def isLeapYear (y : Nat) : Bool :=
  y % 4 == 0 && (y % 100 != 0 || y % 400 == 0)

def daysInMonth (y m : Nat) : Nat :=
  if m == 2 then (if isLeapYear y then 29 else 28)
  else if m == 4 || m == 6 || m == 9 || m == 11 then 30
  else 31

/-- Models the Python constructor `datetime(year, month, day)`: `some` on a
valid calendar date, `none` when the constructor would raise ValueError. -/
def mkDatetime (y m d : Nat) : Option Date :=
  if 1 ≤ y && y ≤ 9999 && 1 ≤ m && m ≤ 12 && 1 ≤ d && d ≤ daysInMonth y m then
    some ⟨y, m, d⟩
  else none

def digitVal (c : Char) : Nat := c.toNat - '0'.toNat

/-- Match exactly n digit characters at the head of the input
(the regex atom backslash-d repeated exactly n times), returning their
numeric value and the rest of the input. -/
def dExact : Nat → List Char → Option (Nat × List Char)
  | 0, s => some (0, s)
  | _ + 1, [] => none
  | n + 1, c :: s =>
    if c.isDigit then
      (dExact n s).map (fun p => (digitVal c * 10 ^ n + p.1, p.2))
    else none

def expectChar (c : Char) : List Char → Option (List Char)
  | [] => none
  | x :: s => if x = c then some s else none

/-- Match the regex fragment "one or two digits followed by the separator
character sep" at the head of the input, with the greedy semantics of the
source patterns.  Backtracking from two digits to one never succeeds here
because the separator characters used by the source are never digits, so the
direct case analysis below is exact. -/
def d12Sep (sep : Char) : List Char → Option (Nat × List Char)
  | [] => none
  | a :: rest =>
    if a.isDigit then
      match rest with
      | [] => none
      | b :: rest2 =>
        if b.isDigit then
          match rest2 with
          | [] => none
          | c :: rest3 =>
            if c = sep then some (digitVal a * 10 + digitVal b, rest3) else none
        else if b = sep then some (digitVal a, rest2) else none
    else none

/-- Match the regex fragment "one or two digits" greedily at the head of the
input with nothing required after it (the final group of the slash pattern). -/
def d12End : List Char → Option (Nat × List Char)
  | [] => none
  | a :: rest =>
    if a.isDigit then
      match rest with
      | [] => some (digitVal a, [])
      | b :: rest2 =>
        if b.isDigit then some (digitVal a * 10 + digitVal b, rest2)
        else some (digitVal a, b :: rest2)
    else none

/-- Match of the first date pattern of extract_date_from_content (four digits,
the kanji for year, one or two digits, the kanji for month, one or two digits,
the kanji for day) anchored at the head of the input. -/
def matchP1 (s : List Char) : Option (Nat × Nat × Nat) :=
  (dExact 4 s).bind fun p1 =>
  (expectChar '年' p1.2).bind fun s2 =>
  (d12Sep '月' s2).bind fun p2 =>
  (d12Sep '日' p2.2).map fun p3 => (p1.1, p2.1, p3.1)

/-- Match of the second date pattern (four digits, hyphen, two digits, hyphen,
two digits) anchored at the head of the input. -/
def matchP2 (s : List Char) : Option (Nat × Nat × Nat) :=
  (dExact 4 s).bind fun p1 =>
  (expectChar '-' p1.2).bind fun s2 =>
  (dExact 2 s2).bind fun p2 =>
  (expectChar '-' p2.2).bind fun s3 =>
  (dExact 2 s3).map fun p3 => (p1.1, p2.1, p3.1)

/-- Match of the third date pattern (four digits, slash, one or two digits,
slash, one or two digits) anchored at the head of the input. -/
def matchP3 (s : List Char) : Option (Nat × Nat × Nat) :=
  (dExact 4 s).bind fun p1 =>
  (expectChar '/' p1.2).bind fun s2 =>
  (d12Sep '/' s2).bind fun p2 =>
  (d12End p2.2).map fun p3 => (p1.1, p2.1, p3.1)

/-- Leftmost match of an anchored matcher: models taking the first element of
re.findall (the regex engine scans positions left to right). -/
def scanFirst (f : List Char → Option (Nat × Nat × Nat)) :
    List Char → Option (Nat × Nat × Nat)
  | [] => f []
  | c :: rest =>
    match f (c :: rest) with
    | some r => some r
    | none => scanFirst f rest

/-- Date-seeking core of SmartIRCrawler.extract_date_from_content.  For each
pattern in order, the source takes the first findall match and tries to build
a datetime from it; a ValueError (invalid calendar date) falls through to the
next pattern.  The fourth and fifth source patterns have a single capture
group each, so their findall results are plain strings, the
isinstance(match, tuple) / len(match) == 3 guard never passes for them, and
they can never produce a return value; they are therefore omitted here. -/
def extractDateCore (content : String) : Option Date :=
  let s := content.toList
  let p1 := match scanFirst matchP1 s with
    | some (y, m, d) => mkDatetime y m d
    | none => none
  let p2 := match scanFirst matchP2 s with
    | some (y, m, d) => mkDatetime y m d
    | none => none
  let p3 := match scanFirst matchP3 s with
    | some (y, m, d) => mkDatetime y m d
    | none => none
  (p1.orElse fun _ => p2).orElse fun _ => p3

/-- Models SmartIRCrawler.extract_date_from_content.  The url parameter is
accepted and ignored exactly as in the source; when no pattern yields a valid
date the source returns datetime.now(), modelled by the explicit now
parameter. -/
def extract_date_from_content (content url : String) (now : Date) : Date :=
  (extractDateCore content).getD now

/-- The priority_keywords table of SmartIRCrawler.score_content_importance,
in source order. -/
def priority_keywords : List (String × Nat) :=
  [("決算短信", 10), ("有価証券報告書", 9), ("決算説明会", 8),
   ("業績ハイライト", 7), ("中期経営計画", 6), ("株主総会", 5),
   ("適時開示", 4), ("ニュースリリース", 3), ("IR", 2)]

/-- The earnings_keywords list of SmartIRCrawler.score_content_importance. -/
def earnings_keywords : List String := ["決算", "業績", "財務", "売上", "利益"]

/-- Models SmartIRCrawler.score_content_importance.  The source computes
content.lower() but never uses it for the keyword tests (they test the raw
content and url); only the PDF test uses url.lower(). -/
def score_content_importance (content url : String) : Nat :=
  let base := (priority_keywords.map
    (fun kw => if strContains content kw.1 || strContains url kw.1 then kw.2 else 0)).sum
  let pdfBonus := if strContains (lowerStr url) ".pdf" then 3 else 0
  let earn := (earnings_keywords.map
    (fun kw => if strContains content kw then 2 else 0)).sum
  base + pdfBonus + earn

/-- A fetched page as seen by the crawler: the title element (if any), the
response body text, and the href-bearing anchors (href value, anchor text)
in document order.  Models what BeautifulSoup exposes of response.text. -/
structure Page where
  title : Option String
  text : String
  links : List (String × String)
deriving DecidableEq, Repr

/-- The crawler's external world: fetch models one session.get plus
raise_for_status (none is a requests exception or a non-200 status), and
join models urllib.parse.urljoin, an external library function whose exact
behaviour none of the claims depend on. -/
structure Env where
  fetch : String → Option Page
  join : String → String → String

/-- Constructor arguments of SmartIRCrawler that the modelled methods read:
company_domain, the ir_url argument (None allowed, as in the source), and
max_depth (source default 4). -/
structure CrawlerConfig where
  company_domain : String
  ir_url_arg : Option String
  max_depth : Nat
deriving DecidableEq, Repr

/-- Models the constructor line ir_url = ir_url or f-string default: Python
`or` also replaces an empty string. -/
def ir_url (cfg : CrawlerConfig) : String :=
  match cfg.ir_url_arg with
  | some u => if u = "" then "https://" ++ cfg.company_domain ++ "/ir/" else u
  | none => "https://" ++ cfg.company_domain ++ "/ir/"

/-- One collected dict of discover_ir_links: url, content (first 3000
characters), date, importance, title. -/
structure Item where
  url : String
  content : String
  date : Date
  importance : Nat
  title : String
deriving DecidableEq, Repr

/-- Models the scheme check at the top of discover_ir_links: a url without an
http or https scheme is prefixed with https. -/
def normalizeUrl (u : String) : String :=
  if "http://".toList.isPrefixOf u.toList || "https://".toList.isPrefixOf u.toList then u
  else "https://" ++ u

/-- Models start_url.split('/')[-1], the title fallback. -/
def splitOnSlashAux : List Char → List Char → List (List Char)
  | [], cur => [cur.reverse]
  | c :: rest, cur =>
    if c = '/' then cur.reverse :: splitOnSlashAux rest []
    else splitOnSlashAux rest (c :: cur)

def lastUrlComponent (url : String) : String :=
  ⟨(splitOnSlashAux url.toList []).getLastD []⟩

/-- The dict literal appended for every successfully fetched page in
discover_ir_links. -/
def mkItem (url : String) (page : Page) (now : Date) : Item :=
  { url := url
    content := takeChars 3000 page.text
    date := extract_date_from_content page.text url now
    importance := score_content_importance page.text url
    title := page.title.getD (lastUrlComponent url) }

/-- The ir_keywords list of discover_ir_links and its anchor test: any
keyword contained in the lower-cased anchor text or the lower-cased href. -/
def linkMatches (href anchorText : String) : Bool :=
  ["決算", "業績", "ir", "investor"].any fun kw =>
    strContains (lowerStr anchorText) kw || strContains (lowerStr href) kw

/-- A fetch-log entry: the url a GET was issued for and the recursion depth
it was issued at. -/
abbrev LogEntry := String × Nat

/-- The link loop of discover_ir_links: iterate the first 20 href-bearing
anchors, skip empty hrefs, recurse (childFn) on keyword-matching links, and
break as soon as five items have accumulated.  The accumulator carries the
collected items and the fetch log. -/
def linksLoop (childFn : String → List Item × List LogEntry) :
    List (String × String) → List Item × List LogEntry → List Item × List LogEntry
  | [], acc => acc
  | (href, anchorText) :: rest, acc =>
    if href = "" then linksLoop childFn rest acc
    else if linkMatches href anchorText then
      let child := childFn href
      let acc2 := (acc.1 ++ child.1, acc.2 ++ child.2)
      if 5 ≤ acc2.1.length then acc2
      else linksLoop childFn rest acc2
    else linksLoop childFn rest acc

/-- Fuel-indexed embedding of SmartIRCrawler.discover_ir_links.  The source
recursion is driven by the depth parameter alone: child links are followed
only when depth < 2 (a hard-coded constant, independent of max_depth), so a
call chain starting anywhere has length at most three and fuel 3 is exact;
see discoverF_fuel_irrelevant below.  Returns the collected items and the
log of every GET that was issued, tagged with its depth. -/
def discoverF (env : Env) (cfg : CrawlerConfig) (now : Date) :
    Nat → String → Nat → List Item × List LogEntry
  | 0, _, _ => ([], [])
  | fuel + 1, start_url, depth =>
    if cfg.max_depth < depth then ([], [])
    else
      let url := normalizeUrl start_url
      match env.fetch url with
      | none => ([], [(url, depth)])
      | some page =>
        let discovered := [mkItem url page now]
        if depth < 2 then
          linksLoop
            (fun href => discoverF env cfg now fuel (env.join url href) (depth + 1))
            (page.links.take 20) (discovered, [(url, depth)])
        else (discovered, [(url, depth)])

/-- SmartIRCrawler.discover_ir_links, with its fetch log. -/
def discover_ir_links (env : Env) (cfg : CrawlerConfig) (now : Date)
    (start_url : String) (depth : Nat) : List Item × List LogEntry :=
  discoverF env cfg now 3 start_url depth

/-- The five candidate IR URL patterns of crawl_with_intelligence, in source
order. -/
def ir_patterns (cfg : CrawlerConfig) : List String :=
  [ir_url cfg,
   "https://" ++ cfg.company_domain ++ "/ir/",
   "https://" ++ cfg.company_domain ++ "/investor/",
   "https://" ++ cfg.company_domain ++ "/company/ir/",
   "https://ir." ++ cfg.company_domain ++ "/"]

/-- The pattern loop of crawl_with_intelligence: skip empty patterns or when
three items were already accumulated, otherwise run discover_ir_links at
depth 0 and break on the first pattern that yields any items.  The fetch log
accumulates across attempted patterns. -/
def crawlLoop (env : Env) (cfg : CrawlerConfig) (now : Date) :
    List String → List Item × List LogEntry → List Item × List LogEntry
  | [], acc => acc
  | p :: rest, acc =>
    if p = "" || 3 ≤ acc.1.length then crawlLoop env cfg now rest acc
    else
      let r := discover_ir_links env cfg now p 0
      if r.1.isEmpty then crawlLoop env cfg now rest (acc.1, acc.2 ++ r.2)
      else (acc.1 ++ r.1, acc.2 ++ r.2)

/-- The deduplication loop of crawl_with_intelligence: a dict keyed by url is
filled with `if item['url'] not in unique_content`, so the first item seen
for a url is kept and dict insertion order preserves first-seen order. -/
def dedupAux : List String → List Item → List Item
  | _, [] => []
  | seen, it :: rest =>
    if seen.contains it.url then dedupAux seen rest
    else it :: dedupAux (it.url :: seen) rest

def dedupByUrl (items : List Item) : List Item := dedupAux [] items

/-- Models sorted(..., key=importance, reverse=True): CPython's sort is a
stable mergesort and reverse=True flips the comparison while keeping equal
keys in insertion order. -/
def sortByImportanceDesc (items : List Item) : List Item :=
  items.mergeSort (fun a b => decide (b.importance ≤ a.importance))

/-- SmartIRCrawler.crawl_with_intelligence together with the fetch log of the
run: try the URL patterns, return [] when nothing was collected, otherwise
deduplicate by url, sort by importance descending and keep the top five. -/
def crawl_with_intelligence_log (env : Env) (cfg : CrawlerConfig) (now : Date) :
    List Item × List LogEntry :=
  let r := crawlLoop env cfg now (ir_patterns cfg) ([], [])
  if r.1.isEmpty then ([], r.2)
  else ((sortByImportanceDesc (dedupByUrl r.1)).take 5, r.2)

/-- SmartIRCrawler.crawl_with_intelligence (the value the caller receives). -/
def crawl_with_intelligence (env : Env) (cfg : CrawlerConfig) (now : Date) :
    List Item :=
  (crawl_with_intelligence_log env cfg now).1

/-- The primary_indicators list of assess_content_reliability. -/
def primary_indicators : List String :=
  ["決算短信", "有価証券報告書", "アニュアルレポート", "決算説明",
   "中期経営計画", "投資家向け", "ir資料", "公式発表", "開示情報"]

/-- The unreliable_indicators list of assess_content_reliability. -/
def unreliable_indicators : List String :=
  ["推定", "一般的に", "業界標準", "通常", "多くの企業",
   "と思われ", "と考えられ", "可能性があ", "予想される"]

/-- The honest_indicators list of assess_content_reliability. -/
def honest_indicators : List String :=
  ["確認できません", "開示されていません", "公表されていません",
   "情報が限定的", "詳細は不明"]

/-- Models StreamlitCompanyResearcher.assess_content_reliability.  The
argument is Option String because callers may pass None; `not content`
covers both None and the empty string, and the empty string is also shorter
than 10 characters.  Each indicator present adds or subtracts its weight
once; the year bonus tests the raw content while the indicator lists test
content.lower(); the final value is clamped to the range 0..100. -/
def assess_content_reliability (content : Option String) : Int :=
  match content with
  | none => 0
  | some c =>
    if c.length < 10 then 0
    else
      let cl := lowerStr c
      let s1 : Int := 50 + 15 * ((primary_indicators.filter (fun i => strContains cl i)).length : Int)
      let s2 : Int := s1 +
        (if ["2024年", "2023年", "2022年", "2025年"].any (fun y => strContains c y) then 10 else 0)
      let s3 : Int := s2 - 20 * ((unreliable_indicators.filter (fun i => strContains cl i)).length : Int)
      let s4 : Int := s3 + 10 * ((honest_indicators.filter (fun i => strContains cl i)).length : Int)
      max 0 (min 100 s4)

/-- One search hit as consumed by the filter methods: the title, snippet and
link fields of a SerpAPI organic result. -/
structure SearchResult where
  title : String
  snippet : String
  link : String
deriving DecidableEq, Repr

/-- The exclude_keywords list of filter_relevant_results. -/
def rel_exclude_keywords : List String :=
  ["求人", "転職", "採用", "面接", "就活", "新卒", "中途", "口コミ", "indeed", "リクナビ"]

/-- The important_keywords list of filter_relevant_results. -/
def rel_important_keywords : List String :=
  ["市場", "業界", "売上", "利益", "業績", "シェア", "競合", "事業", "戦略", "分析"]

/-- The trusted source domains of filter_relevant_results. -/
def trusted_domains : List String :=
  ["nikkei.com", "toyokeizai.net", "diamond.jp", "itmedia.co.jp"]

/-- The relevance score computed by filter_relevant_results for one result
that passed the exclusion and company-name tests: +2 per important keyword in
the lower-cased title, +1 per important keyword in the lower-cased snippet,
+3 when the raw link contains a trusted domain. -/
def relevanceScore (r : SearchResult) : Nat :=
  (rel_important_keywords.map
    (fun kw => (if strContains (lowerStr r.title) kw then 2 else 0) +
               (if strContains (lowerStr r.snippet) kw then 1 else 0))).sum +
  (if trusted_domains.any (fun d => strContains r.link d) then 3 else 0)

/-- Models StreamlitCompanyResearcher.filter_relevant_results: drop results
whose lower-cased title or snippet contains an exclusion keyword, drop
results that do not mention the company name, score the rest, keep those
with score at least 3, and sort by score descending (stable).  The score the
source stores into the result dict is returned alongside each result. -/
def filter_relevant_results (results : List SearchResult) (company_name : String) :
    List (SearchResult × Nat) :=
  let filtered := results.filterMap fun r =>
    if rel_exclude_keywords.any
        (fun k => strContains (lowerStr r.title) k || strContains (lowerStr r.snippet) k) then
      none
    else if !strContains (lowerStr r.title) (lowerStr company_name) &&
            !strContains (lowerStr r.snippet) (lowerStr company_name) then
      none
    else if 3 ≤ relevanceScore r then some (r, relevanceScore r)
    else none
  filtered.mergeSort (fun a b => decide (b.2 ≤ a.2))

/-- The ir_keywords list of filter_ir_documents.  Note the source tests the
upper-case string "IR" against the lower-cased title and snippet, so that
entry can never match; it is kept verbatim. -/
def ir_doc_keywords : List String :=
  ["決算", "有価証券報告書", "中期経営計画", "業績", "IR",
   "投資家", "財務", "売上", "利益", "戦略"]

/-- The exclude_keywords list of filter_ir_documents. -/
def ir_exclude_keywords : List String :=
  ["求人", "転職", "採用", "新卒", "口コミ", "indeed", "リクナビ", "マイナビ"]

/-- The IR-relatedness score computed by filter_ir_documents for one result
that passed the exclusion and company-name tests. -/
def irScore (r : SearchResult) (company_name : String) : Nat :=
  (ir_doc_keywords.map
    (fun kw => (if strContains (lowerStr r.title) kw then 3 else 0) +
               (if strContains (lowerStr r.snippet) kw then 1 else 0))).sum +
  (if strContains r.link ".pdf" || strContains r.link "filetype:pdf" then 2 else 0) +
  (if strContains r.link (lowerStr company_name) || strContains r.link ".co.jp" then 2 else 0)

/-- Models StreamlitCompanyResearcher.filter_ir_documents: exclusion check on
the lower-cased title and snippet first, then the company-name mention test,
then the score with threshold 3, then a stable descending sort. -/
def filter_ir_documents (results : List SearchResult) (company_name : String) :
    List (SearchResult × Nat) :=
  let filtered := results.filterMap fun r =>
    if ir_exclude_keywords.any
        (fun k => strContains (lowerStr r.title) k || strContains (lowerStr r.snippet) k) then
      none
    else if !strContains (lowerStr r.title) (lowerStr company_name) &&
            !strContains (lowerStr r.snippet) (lowerStr company_name) then
      none
    else if 3 ≤ irScore r company_name then some (r, irScore r company_name)
    else none
  filtered.mergeSort (fun a b => decide (b.2 ≤ a.2))

/-- One entry of the external_data list built by search_external_sources or
create_fallback_external_data.  The fallback dicts carry no relevance_score
key, modelled by none (the later sort reads the key with default 0). -/
structure ExternalItem where
  title : String
  snippet : String
  url : String
  source : String
  itemType : String
  relevance_score : Option Nat
deriving DecidableEq, Repr

/-- Models urlparse(url).netloc for the absolute URLs this code handles: the
text between the scheme separator and the next slash. -/
def netlocAux : List Char → List Char
  | [] => []
  | ':' :: '/' :: '/' :: rest => rest.takeWhile (fun c => c ≠ '/' && c ≠ '?' && c ≠ '#')
  | _ :: rest => netlocAux rest

def netloc (url : String) : String := ⟨netlocAux url.toList⟩

/-- Models StreamlitCompanyResearcher.extract_domain. -/
def extract_domain (url : String) : String :=
  if url = "" then "不明"
  else
    let domain := netloc url
    if strContains domain "nikkei.com" then "日本経済新聞"
    else if strContains domain "toyokeizai.net" then "東洋経済オンライン"
    else if strContains domain "diamond.jp" then "ダイヤモンド・オンライン"
    else if strContains domain "itmedia.co.jp" then "ITmedia"
    else domain

/-- Models StreamlitCompanyResearcher.create_fallback_external_data: when the
company name contains リクルート two hard-coded industry dicts are returned,
otherwise one generic dict built from the industry keywords; all carry the
type 推定情報 and the source フォールバック分析. -/
def create_fallback_external_data (company_name industry_keywords : String) :
    List ExternalItem :=
  if strContains company_name "リクルート" then
    [{ title := "人材・住宅情報サービス業界の動向"
       snippet := "人材情報サービス業界は継続的な成長を示しており、デジタル化とAI活用が進展している。住宅情報サービスも同様にDX化が加速。"
       url := "https://example.com/industry-trend"
       source := "フォールバック分析", itemType := "推定情報", relevance_score := none },
     { title := "情報サービス業界の競合状況"
       snippet := "住宅情報分野では複数のプラットフォームが競合。人材サービスではグローバル企業との競争が激化。"
       url := "https://example.com/competition"
       source := "フォールバック分析", itemType := "推定情報", relevance_score := none }]
  else
    [{ title := industry_keywords ++ "業界の市場動向"
       snippet := "当該業界では技術革新とデジタル変革が進んでおり、市場環境は変化している。"
       url := "https://example.com/market-trend"
       source := "フォールバック分析", itemType := "推定情報", relevance_score := none }]

/-- The two search query f-strings of search_external_sources. -/
def search_queries (company_name : String) : List String :=
  ["\"" ++ company_name ++ "\" 市場規模 OR 業界シェア OR 売上 OR 業績 site:nikkei.com OR site:toyokeizai.net OR site:diamond.jp",
   "\"" ++ company_name ++ "\" 競合 OR ライバル OR 業界地位 -求人 -転職 site:nikkei.com OR site:itmedia.co.jp"]

/-- Models StreamlitCompanyResearcher.search_external_sources.  searchEnv
maps a query to the organic_results list of search_with_serpapi; none covers
a non-200 response, a response without organic_results, and a raised
exception (all treated alike by the source loop).  A missing key — None or
the Python-falsy empty string — short-circuits to
create_fallback_external_data before any query is issued. -/
def search_external_sources (searchEnv : String → Option (List SearchResult))
    (serpapi_key : Option String) (company_name industry_keywords : String) :
    List ExternalItem :=
  let keyMissing := match serpapi_key with
    | none => true
    | some k => k = ""
  if keyMissing then create_fallback_external_data company_name industry_keywords
  else
    let gathered := (search_queries company_name).foldl
      (fun acc q =>
        match searchEnv q with
        | none => acc
        | some rs =>
          acc ++ ((filter_relevant_results rs company_name).take 2).map
            (fun p =>
              { title := p.1.title, snippet := p.1.snippet, url := p.1.link
                source := extract_domain p.1.link, itemType := "外部記事"
                relevance_score := some p.2 })) []
    (gathered.mergeSort
      (fun a b => decide (b.relevance_score.getD 0 ≤ a.relevance_score.getD 0))).take 4

/-- Fetch environment for the C4 counterexample: one page whose text
contains no recognizable date pattern. -/
def c4Page : Page := { title := some "IRトップ", text := "本文に日付情報なし 業績", links := [] }

def c4Env : Env :=
  { fetch := fun u => if u = "https://e.jp/ir/" then some c4Page else none
    join := fun b h => b ++ h }

def c4Cfg : CrawlerConfig := { company_domain := "e.jp", ir_url_arg := none, max_depth := 4 }

/-- Environment for the C8 witness: every fetch fails. -/
def c8Env : Env := { fetch := fun _ => none, join := fun b h => b ++ h }

def c8Cfg : CrawlerConfig := { company_domain := "e.jp", ir_url_arg := none, max_depth := 4 }

def c3Page : Page := { title := some "IR", text := "決算情報", links := [] }

def c3Env : Env :=
  { fetch := fun u => if u = "https://w.jp/ir/" then some c3Page else none
    join := fun b h => b ++ h }

def c3Cfg : CrawlerConfig := { company_domain := "w.jp", ir_url_arg := none, max_depth := 1 }

/-- Worst-case number of fetches a discoverF call with the given fuel can
issue: one for the seed plus up to 20 links each spawning a child. -/
def fetchBound : Nat → Nat
  | 0 => 0
  | f + 1 => 1 + 20 * fetchBound f

def c7Root : Page :=
  { title := some "IR情報"
    text := "IRトップページ"
    links := [("a1", "ir"), ("a2", "ir"), ("a3", "ir"), ("a4", "ir"),
              ("a5", "ir"), ("a6", "ir"), ("a7", "ir"), ("a8", "ir"),
              ("a9", "ir"), ("a10", "ir"), ("a11", "ir"), ("a12", "ir")] }

def c7Env : Env :=
  { fetch := fun u => if u = "https://e.jp/ir/" then some c7Root else none
    join := fun b h => b ++ h }

def c7Cfg : CrawlerConfig := { company_domain := "e.jp", ir_url_arg := none, max_depth := 4 }

def w2a : Item :=
  { url := "https://x.jp/", content := "a", date := ⟨2024, 1, 1⟩, importance := 3, title := "A" }

def w2b : Item :=
  { url := "https://x.jp/", content := "b", date := ⟨2024, 1, 1⟩, importance := 9, title := "B" }

def w2Page : Page := { title := some "T", text := "決算", links := [] }

def w2Env : Env :=
  { fetch := fun u => if u = "https://x.jp/" then some w2Page else none
    join := fun b h => b ++ h }

def w2Cfg : CrawlerConfig := { company_domain := "x.jp", ir_url_arg := none, max_depth := 4 }

def c2Root : Page :=
  { title := some "IR", text := "IRトップ", links := [("a", "ir one"), ("a", "ir two")] }

def c2Child : Page := { title := none, text := "決算資料", links := [] }

def c2Env : Env :=
  { fetch := fun u =>
      if u = "https://d.jp/ir/" then some c2Root
      else if u = "https://d.jp/ir/a" then some c2Child
      else none
    join := fun b h => b ++ h }

def c2Cfg : CrawlerConfig := { company_domain := "d.jp", ir_url_arg := none, max_depth := 4 }

def c6r : SearchResult :=
  { title := "求人情報 テスト株式会社 業績 売上"
    snippet := "テスト株式会社の業績と売上と市場シェアの分析"
    link := "https://nikkei.com/a.pdf" }

theorem toList_append (s t : String) : (s ++ t).toList = s.toList ++ t.toList := by
  simp [String.toList]

/-- Substring containment is preserved when the haystack is extended on the
right (Python: n in a implies n in a + b). -/
theorem strContains_mono {a n : String} (b : String) (h : strContains a n = true) :
    strContains (a ++ b) n = true := by
  simp only [strContains, decide_eq_true_eq] at h ⊢
  rw [toList_append]
  exact h.trans (List.prefix_append _ _).isInfix

/-- Appending a string makes it a substring of the result. -/
theorem strContains_append_self (a n : String) : strContains (a ++ n) n = true := by
  simp only [strContains, decide_eq_true_eq]
  rw [toList_append]
  exact (List.suffix_append _ _).isInfix

theorem ite_weight_mono {c1 c2 : Bool} (h : c1 = true → c2 = true) (v : Nat) :
    (if c1 then v else 0) ≤ (if c2 then v else 0) := by
  cases hc : c1 with
  | false => simp
  | true => rw [h hc]

/-- Every entry of the priority table carries a positive weight. -/
theorem priority_keywords_pos : ∀ p ∈ priority_keywords, 0 < p.2 := by decide

/-- C5 (confirmed): appending one priority-table keyword that occurs in
neither the content nor the url strictly increases
score_content_importance.  Every contribution of the score is monotone in
the set of substrings of the content, and the appended keyword's own entry
flips from 0 to its positive weight. -/
theorem score_content_importance_strict_mono
    (content url kw : String) (pts : Nat)
    (hmem : (kw, pts) ∈ priority_keywords)
    (hc : strContains content kw = false) (hu : strContains url kw = false) :
    score_content_importance content url <
      score_content_importance (content ++ kw) url := by
  have hpos : 0 < pts := priority_keywords_pos (kw, pts) hmem
  obtain ⟨s, t, hst⟩ := List.append_of_mem hmem
  have hbase :
      (priority_keywords.map
        (fun p => if strContains content p.1 || strContains url p.1 then p.2 else 0)).sum + pts ≤
      (priority_keywords.map
        (fun p => if strContains (content ++ kw) p.1 || strContains url p.1 then p.2 else 0)).sum := by
    rw [hst]
    simp only [List.map_append, List.map_cons, List.sum_append, List.sum_cons]
    have hS : (s.map (fun p => if strContains content p.1 || strContains url p.1 then p.2 else 0)).sum ≤
        (s.map (fun p => if strContains (content ++ kw) p.1 || strContains url p.1 then p.2 else 0)).sum := by
      apply List.sum_le_sum
      intro p _
      apply ite_weight_mono
      intro hor
      simp only [Bool.or_eq_true] at hor ⊢
      rcases hor with h1 | h1
      · exact Or.inl (strContains_mono kw h1)
      · exact Or.inr h1
    have hT : (t.map (fun p => if strContains content p.1 || strContains url p.1 then p.2 else 0)).sum ≤
        (t.map (fun p => if strContains (content ++ kw) p.1 || strContains url p.1 then p.2 else 0)).sum := by
      apply List.sum_le_sum
      intro p _
      apply ite_weight_mono
      intro hor
      simp only [Bool.or_eq_true] at hor ⊢
      rcases hor with h1 | h1
      · exact Or.inl (strContains_mono kw h1)
      · exact Or.inr h1
    have hold : (if strContains content kw || strContains url kw then pts else 0) = 0 := by
      rw [hc, hu]; rfl
    have hnew : (if strContains (content ++ kw) kw || strContains url kw then pts else 0) = pts := by
      rw [strContains_append_self]; rfl
    rw [hold, hnew]
    omega
  have hearn :
      (earnings_keywords.map (fun k => if strContains content k then 2 else 0)).sum ≤
      (earnings_keywords.map (fun k => if strContains (content ++ kw) k then 2 else 0)).sum := by
    apply List.sum_le_sum
    intro k _
    exact ite_weight_mono (fun h => strContains_mono kw h) 2
  simp only [score_content_importance]
  omega

/-- C5 witness: the theorem applied to a concrete content, url and the
priority keyword 決算短信. -/
theorem score_content_importance_strict_mono_witness :
    score_content_importance "こんにちは世界" "https://example.jp/page" <
      score_content_importance ("こんにちは世界" ++ "決算短信") "https://example.jp/page" :=
  score_content_importance_strict_mono "こんにちは世界" "https://example.jp/page"
    "決算短信" 10 (by decide) (by decide) (by decide)

/-- C10 (confirmed): assess_content_reliability always lands in 0..100 and
is exactly 0 for an absent content value or one shorter than 10 characters
(which covers the empty string). -/
theorem assess_content_reliability_range (content : Option String) :
    0 ≤ assess_content_reliability content ∧
    assess_content_reliability content ≤ 100 ∧
    (content = none → assess_content_reliability content = 0) ∧
    (∀ s, content = some s → s.length < 10 → assess_content_reliability content = 0) := by
  refine ⟨?_, ?_, ?_, ?_⟩
  · cases content with
    | none => simp [assess_content_reliability]
    | some c =>
      simp only [assess_content_reliability]
      split
      · exact le_refl 0
      · exact le_max_left 0 _
  · cases content with
    | none => simp [assess_content_reliability]
    | some c =>
      simp only [assess_content_reliability]
      split
      · norm_num
      · exact max_le (by norm_num) (min_le_left 100 _)
  · intro h; rw [h]; rfl
  · intro s hs hlen
    rw [hs]
    simp only [assess_content_reliability]
    rw [if_pos hlen]

/-- C10 witness: the theorem applied at a too-short content value and at an
absent one. -/
theorem assess_content_reliability_range_witness :
    assess_content_reliability (some "短い") = 0 ∧
    assess_content_reliability none = 0 ∧
    0 ≤ assess_content_reliability (some "決算短信を公開しました。推定では2024年の売上。") := by
  refine ⟨?_, ?_, ?_⟩
  · exact (assess_content_reliability_range (some "短い")).2.2.2 "短い" rfl (by decide)
  · exact (assess_content_reliability_range none).2.2.1 rfl
  · exact (assess_content_reliability_range (some "決算短信を公開しました。推定では2024年の売上。")).1

/-- C4 amended: the extracted date is a deterministic function of the
content whenever some pattern yields a valid calendar date; only when no
pattern matches does the result fall back to the ambient clock value. -/
theorem extract_date_deterministic (content url : String) (now1 now2 : Date) :
    (∀ d, extractDateCore content = some d →
      extract_date_from_content content url now1 =
        extract_date_from_content content url now2) ∧
    (extractDateCore content = none →
      extract_date_from_content content url now1 = now1) := by
  constructor
  · intro d h
    simp [extract_date_from_content, h]
  · intro h
    simp [extract_date_from_content, h]

/-- C4 amended witness: the theorem applied to a content carrying a valid
date, and to one carrying none. -/
theorem extract_date_deterministic_witness :
    extract_date_from_content "公表日は2024年3月5日です" "u" ⟨2025, 1, 1⟩ =
      extract_date_from_content "公表日は2024年3月5日です" "u" ⟨2026, 12, 31⟩ ∧
    extract_date_from_content "日付のない本文" "u" ⟨2025, 1, 1⟩ = ⟨2025, 1, 1⟩ := by
  constructor
  · exact (extract_date_deterministic "公表日は2024年3月5日です" "u" ⟨2025, 1, 1⟩ ⟨2026, 12, 31⟩).1
      ⟨2024, 3, 5⟩ (by decide)
  · exact (extract_date_deterministic "日付のない本文" "u" ⟨2025, 1, 1⟩ ⟨2026, 12, 31⟩).2 (by decide)

/-- C4 counterexample: with the seed set, fetched responses and budget all
fixed, two runs that differ only in the ambient clock return different
ScoredItem sequences, because the date metadata of a page without a date
pattern is datetime.now(). -/
theorem crawl_ambient_time_dependent :
    discover_ir_links c4Env c4Cfg ⟨2024, 1, 1⟩ "https://e.jp/ir/" 0 ≠
      discover_ir_links c4Env c4Cfg ⟨2025, 6, 15⟩ "https://e.jp/ir/" 0 := by decide

/-- A failed fetch of the seed URL makes discover_ir_links return no items
(the except branches of the source return []). -/
theorem discover_failed_fetch_empty (env : Env) (cfg : CrawlerConfig) (now : Date)
    (start_url : String) (depth : Nat)
    (h : env.fetch (normalizeUrl start_url) = none) :
    (discover_ir_links env cfg now start_url depth).1 = [] := by
  simp only [discover_ir_links, discoverF]
  split
  · rfl
  · rw [h]

/-- Helper for C8: with an environment in which every fetch fails, the
pattern loop leaves the item accumulator empty. -/
theorem crawlLoop_all_failed (env : Env) (cfg : CrawlerConfig) (now : Date)
    (hall : ∀ u, env.fetch u = none) :
    ∀ (l : List String) (log : List LogEntry),
      (crawlLoop env cfg now l ([], log)).1 = [] := by
  intro l
  induction l with
  | nil => intro log; rfl
  | cons p rest ih =>
    intro log
    simp only [crawlLoop]
    split
    · exact ih log
    · have hr : (discover_ir_links env cfg now p 0).1 = [] :=
        discover_failed_fetch_empty env cfg now p 0 (hall _)
      rw [hr]
      simp only [List.isEmpty_nil, if_true]
      exact ih _

/-- C8 (confirmed): a fetch/parse/network failure for a single URL is
absorbed inside discover_ir_links, which returns an empty item list for that
URL; and when every fetch of the run fails, crawl_with_intelligence returns
an empty list instead of raising. -/
theorem failures_absorbed (env : Env) (cfg : CrawlerConfig) (now : Date)
    (start_url : String) (depth : Nat) :
    (env.fetch (normalizeUrl start_url) = none →
      (discover_ir_links env cfg now start_url depth).1 = []) ∧
    ((∀ u, env.fetch u = none) → crawl_with_intelligence env cfg now = []) := by
  constructor
  · exact discover_failed_fetch_empty env cfg now start_url depth
  · intro hall
    simp only [crawl_with_intelligence, crawl_with_intelligence_log]
    rw [crawlLoop_all_failed env cfg now hall (ir_patterns cfg) []]
    rfl

/-- C8 witness: the theorem applied to a concrete all-failing environment. -/
theorem failures_absorbed_witness :
    (discover_ir_links c8Env c8Cfg ⟨2025, 1, 1⟩ "https://e.jp/ir/" 0).1 = [] ∧
    crawl_with_intelligence c8Env c8Cfg ⟨2025, 1, 1⟩ = [] := by
  constructor
  · exact (failures_absorbed c8Env c8Cfg ⟨2025, 1, 1⟩ "https://e.jp/ir/" 0).1 rfl
  · exact (failures_absorbed c8Env c8Cfg ⟨2025, 1, 1⟩ "https://e.jp/ir/" 0).2 (fun _ => rfl)

/-- C9 counterexample: with the search-provider key absent, the search step
does not behave as "no seeds from this provider": it returns fabricated
fallback items rather than contributing no items. -/
theorem missing_key_returns_fabricated_data :
    search_external_sources (fun _ => none) none "株式会社テスト" "IT" ≠ [] := by decide

/-- C9 amended: with the key absent (or empty, which Python treats as
falsy), search_external_sources returns create_fallback_external_data —
one generic fabricated item, or two hard-coded ones when the company name
contains リクルート — all typed 推定情報 with source フォールバック分析;
no query is issued to the provider. -/
theorem missing_key_falls_back (searchEnv : String → Option (List SearchResult))
    (key : Option String) (company_name industry_keywords : String)
    (hkey : key = none ∨ key = some "") :
    search_external_sources searchEnv key company_name industry_keywords =
      create_fallback_external_data company_name industry_keywords ∧
    create_fallback_external_data company_name industry_keywords ≠ [] ∧
    (∀ it ∈ create_fallback_external_data company_name industry_keywords,
      it.itemType = "推定情報" ∧ it.source = "フォールバック分析") := by
  refine ⟨?_, ?_, ?_⟩
  · rcases hkey with h | h <;> rw [h] <;> rfl
  · simp only [create_fallback_external_data]
    split <;> simp
  · intro it hit
    simp only [create_fallback_external_data] at hit
    rcases hit' : strContains company_name "リクルート" with _ | _ <;>
      rw [hit'] at hit <;> simp at hit
    · rw [hit]; exact ⟨rfl, rfl⟩
    · rcases hit with h | h <;> rw [h] <;> exact ⟨rfl, rfl⟩

/-- C9 amended witness: the theorem applied at a concrete missing key. -/
theorem missing_key_falls_back_witness :
    search_external_sources (fun _ => none) none "株式会社サンプル" "製造" =
      create_fallback_external_data "株式会社サンプル" "製造" ∧
    create_fallback_external_data "株式会社サンプル" "製造" ≠ [] :=
  ⟨(missing_key_falls_back (fun _ => none) none "株式会社サンプル" "製造" (Or.inl rfl)).1,
   (missing_key_falls_back (fun _ => none) none "株式会社サンプル" "製造" (Or.inl rfl)).2.1⟩

/-- Any property of fetch-log entries that holds for the accumulator and for
every child call is preserved by the link loop. -/
theorem linksLoop_log_forall (Q : LogEntry → Prop)
    (childFn : String → List Item × List LogEntry) :
    ∀ (links : List (String × String)) (acc : List Item × List LogEntry),
      (∀ p ∈ acc.2, Q p) → (∀ href, ∀ p ∈ (childFn href).2, Q p) →
      ∀ p ∈ (linksLoop childFn links acc).2, Q p := by
  intro links
  induction links with
  | nil => intro acc hacc _ p hp; exact hacc p hp
  | cons l rest ih =>
    intro acc hacc hchild p hp
    obtain ⟨href, anchorText⟩ := l
    simp only [linksLoop] at hp
    split at hp
    · exact ih acc hacc hchild p hp
    · split at hp
      · split at hp
        · rcases List.mem_append.mp hp with h | h
          · exact hacc p h
          · exact hchild href p h
        · refine ih _ ?_ hchild p hp
          intro q hq
          rcases List.mem_append.mp hq with h | h
          · exact hacc q h
          · exact hchild href q h
      · exact ih acc hacc hchild p hp

/-- Any property of items that holds for the accumulator and for every child
call is preserved by the link loop. -/
theorem linksLoop_items_forall (P : Item → Prop)
    (childFn : String → List Item × List LogEntry) :
    ∀ (links : List (String × String)) (acc : List Item × List LogEntry),
      (∀ it ∈ acc.1, P it) → (∀ href, ∀ it ∈ (childFn href).1, P it) →
      ∀ it ∈ (linksLoop childFn links acc).1, P it := by
  intro links
  induction links with
  | nil => intro acc hacc _ it hit; exact hacc it hit
  | cons l rest ih =>
    intro acc hacc hchild it hit
    obtain ⟨href, anchorText⟩ := l
    simp only [linksLoop] at hit
    split at hit
    · exact ih acc hacc hchild it hit
    · split at hit
      · split at hit
        · rcases List.mem_append.mp hit with h | h
          · exact hacc it h
          · exact hchild href it h
        · refine ih _ ?_ hchild it hit
          intro q hq
          rcases List.mem_append.mp hq with h | h
          · exact hacc q h
          · exact hchild href q h
      · exact ih acc hacc hchild it hit

/-- The link loop only ever appends to the accumulated item list. -/
theorem linksLoop_items_prefix (childFn : String → List Item × List LogEntry) :
    ∀ (links : List (String × String)) (acc : List Item × List LogEntry),
      ∃ t, (linksLoop childFn links acc).1 = acc.1 ++ t := by
  intro links
  induction links with
  | nil => intro acc; exact ⟨[], (List.append_nil _).symm⟩
  | cons l rest ih =>
    intro acc
    obtain ⟨href, anchorText⟩ := l
    simp only [linksLoop]
    split
    · exact ih acc
    · split
      · split
        · exact ⟨(childFn href).1, rfl⟩
        · obtain ⟨t, ht⟩ := ih (acc.1 ++ (childFn href).1, acc.2 ++ (childFn href).2)
          exact ⟨(childFn href).1 ++ t, by rw [ht]; simp⟩
      · exact ih acc

/-- The link loop issues at most one child call per link, so its log grows
by at most links.length times any common bound on a child's log. -/
theorem linksLoop_log_length (childFn : String → List Item × List LogEntry)
    (C : Nat) (hchild : ∀ href, (childFn href).2.length ≤ C) :
    ∀ (links : List (String × String)) (acc : List Item × List LogEntry),
      (linksLoop childFn links acc).2.length ≤ acc.2.length + links.length * C := by
  intro links
  induction links with
  | nil => intro acc; simp [linksLoop]
  | cons l rest ih =>
    intro acc
    obtain ⟨href, anchorText⟩ := l
    simp only [linksLoop, List.length_cons]
    have hc := hchild href
    have hstep : (rest.length + 1) * C = rest.length * C + C := by ring
    split
    · have := ih acc; omega
    · split
      · split
        · simp only [List.length_append]
          omega
        · have := ih (acc.1 ++ (childFn href).1, acc.2 ++ (childFn href).2)
          simp only [List.length_append] at this
          omega
      · have := ih acc; omega

/-- Every fetch logged by discoverF is issued at a depth within the
configured maximum: the source returns [] before fetching whenever
depth > max_depth. -/
theorem discoverF_log_depth_le (env : Env) (cfg : CrawlerConfig) (now : Date) :
    ∀ (fuel : Nat) (start_url : String) (depth : Nat),
      ∀ p ∈ (discoverF env cfg now fuel start_url depth).2, p.2 ≤ cfg.max_depth := by
  intro fuel
  induction fuel with
  | zero => intro u d p hp; cases hp
  | succ f ih =>
    intro u d p hp
    simp only [discoverF] at hp
    split at hp
    · cases hp
    · rename_i hnlt
      split at hp
      · simp only [List.mem_singleton] at hp
        subst hp
        omega
      · split at hp
        · refine linksLoop_log_forall (fun q => q.2 ≤ cfg.max_depth) _ _ _ ?_ ?_ p hp
          · intro q hq
            simp only [List.mem_singleton] at hq
            subst hq
            omega
          · intro href q hq
            exact ih _ _ q hq
        · simp only [List.mem_singleton] at hp
          subst hp
          omega

/-- Every item returned by discoverF is exactly the dict built from the page
the environment serves at its url; in particular items are determined by
their url within a run. -/
theorem discoverF_items_spec (env : Env) (cfg : CrawlerConfig) (now : Date) :
    ∀ (fuel : Nat) (start_url : String) (depth : Nat),
      ∀ it ∈ (discoverF env cfg now fuel start_url depth).1,
        ∃ page, env.fetch it.url = some page ∧ it = mkItem it.url page now := by
  intro fuel
  induction fuel with
  | zero => intro u d it hit; cases hit
  | succ f ih =>
    intro u d it hit
    simp only [discoverF] at hit
    split at hit
    · cases hit
    · split at hit
      · cases hit
      · rename_i page hpage
        split at hit
        · refine linksLoop_items_forall
            (fun q => ∃ page, env.fetch q.url = some page ∧ q = mkItem q.url page now)
            _ _ _ ?_ ?_ it hit
          · intro q hq
            simp only [List.mem_singleton] at hq
            subst hq
            exact ⟨page, hpage, rfl⟩
          · intro href q hq
            exact ih _ _ q hq
        · simp only [List.mem_singleton] at hit
          subst hit
          exact ⟨page, hpage, rfl⟩

/-- A successful fetch of the seed within the depth budget puts the seed's
own item at the head of the returned list, whatever happens below it. -/
theorem discoverF_head (env : Env) (cfg : CrawlerConfig) (now : Date)
    (fuel : Nat) (start_url : String) (depth : Nat) (page : Page)
    (hd : depth ≤ cfg.max_depth) (hf : env.fetch (normalizeUrl start_url) = some page) :
    ∃ t, (discoverF env cfg now (fuel + 1) start_url depth).1 =
      mkItem (normalizeUrl start_url) page now :: t := by
  simp only [discoverF]
  rw [if_neg (by omega)]
  split
  · rename_i heq
    rw [hf] at heq
    cases heq
  · rename_i page2 heq
    rw [hf] at heq
    injection heq with heq2
    subst heq2
    split
    · obtain ⟨t, ht⟩ := linksLoop_items_prefix
        (fun href => discoverF env cfg now fuel (env.join (normalizeUrl start_url) href) (depth + 1))
        (page.links.take 20)
        ([mkItem (normalizeUrl start_url) page now], [(normalizeUrl start_url, depth)])
      exact ⟨t, by rw [ht]; rfl⟩
    · exact ⟨[], rfl⟩

/-- C3 (confirmed): discover_ir_links is total (it is a function in this
embedding, with fuel 3 exact because child recursion only happens below the
hard depth-2 cutoff), it never issues a fetch at a depth beyond max_depth,
a call past the budget returns immediately with nothing, and a successful
in-budget fetch always contributes its own item at the head of the returned
(possibly partial) results. -/
theorem discover_respects_depth_budget (env : Env) (cfg : CrawlerConfig) (now : Date)
    (start_url : String) (depth : Nat) :
    (∀ p ∈ (discover_ir_links env cfg now start_url depth).2, p.2 ≤ cfg.max_depth) ∧
    (cfg.max_depth < depth → discover_ir_links env cfg now start_url depth = ([], [])) ∧
    (∀ page, depth ≤ cfg.max_depth → env.fetch (normalizeUrl start_url) = some page →
      ∃ t, (discover_ir_links env cfg now start_url depth).1 =
        mkItem (normalizeUrl start_url) page now :: t) := by
  refine ⟨?_, ?_, ?_⟩
  · exact fun p hp => discoverF_log_depth_le env cfg now 3 start_url depth p hp
  · intro h
    simp only [discover_ir_links, discoverF]
    rw [if_pos h]
  · intro page hd hf
    exact discoverF_head env cfg now 2 start_url depth page hd hf

/-- C3 witness: the theorem applied to a concrete environment, at a depth
past the budget and at an in-budget seed. -/
theorem discover_respects_depth_budget_witness :
    discover_ir_links c3Env c3Cfg ⟨2025, 1, 1⟩ "https://w.jp/other" 2 = ([], []) ∧
    (∃ t, (discover_ir_links c3Env c3Cfg ⟨2025, 1, 1⟩ "https://w.jp/ir/" 0).1 =
      mkItem (normalizeUrl "https://w.jp/ir/") c3Page ⟨2025, 1, 1⟩ :: t) ∧
    (∀ p ∈ (discover_ir_links c3Env c3Cfg ⟨2025, 1, 1⟩ "https://w.jp/ir/" 0).2,
      p.2 ≤ c3Cfg.max_depth) := by
  refine ⟨?_, ?_, ?_⟩
  · exact (discover_respects_depth_budget c3Env c3Cfg ⟨2025, 1, 1⟩ "https://w.jp/other" 2).2.1
      (by decide)
  · exact (discover_respects_depth_budget c3Env c3Cfg ⟨2025, 1, 1⟩ "https://w.jp/ir/" 0).2.2
      c3Page (by decide) (by decide)
  · exact (discover_respects_depth_budget c3Env c3Cfg ⟨2025, 1, 1⟩ "https://w.jp/ir/" 0).1

theorem discoverF_log_length (env : Env) (cfg : CrawlerConfig) (now : Date) :
    ∀ (fuel : Nat) (start_url : String) (depth : Nat),
      (discoverF env cfg now fuel start_url depth).2.length ≤ fetchBound fuel := by
  intro fuel
  induction fuel with
  | zero => intro u d; simp [discoverF, fetchBound]
  | succ f ih =>
    intro u d
    simp only [discoverF, fetchBound]
    split
    · simp
    · split
      · simp
      · rename_i page hpage
        split
        · have hloop := linksLoop_log_length
            (fun href => discoverF env cfg now f (env.join (normalizeUrl u) href) (d + 1))
            (fetchBound f) (fun href => ih _ _)
            (page.links.take 20)
            ([mkItem (normalizeUrl u) page now], [(normalizeUrl u, d)])
          have htake : (page.links.take 20).length ≤ 20 := List.length_take_le _ _
          have hmul : (page.links.take 20).length * fetchBound f ≤ 20 * fetchBound f :=
            Nat.mul_le_mul_right _ htake
          simp only [List.length_singleton] at hloop
          omega
        · simp

theorem crawlLoop_log_length (env : Env) (cfg : CrawlerConfig) (now : Date) :
    ∀ (l : List String) (acc : List Item × List LogEntry),
      (crawlLoop env cfg now l acc).2.length ≤ acc.2.length + l.length * 421 := by
  intro l
  induction l with
  | nil => intro acc; simp [crawlLoop]
  | cons p rest ih =>
    intro acc
    simp only [crawlLoop, List.length_cons]
    have hstep : (rest.length + 1) * 421 = rest.length * 421 + 421 := by ring
    have hdisc : (discover_ir_links env cfg now p 0).2.length ≤ 421 :=
      discoverF_log_length env cfg now 3 p 0
    split
    · have := ih acc; omega
    · split
      · have := ih (acc.1, acc.2 ++ (discover_ir_links env cfg now p 0).2)
        simp only [List.length_append] at this
        omega
      · simp only [List.length_append]
        omega

/-- The fetch log of a crawl run is the fetch log of its pattern loop,
whether or not anything was collected. -/
theorem crawl_log_shape (env : Env) (cfg : CrawlerConfig) (now : Date) :
    (crawl_with_intelligence_log env cfg now).2 =
      (crawlLoop env cfg now (ir_patterns cfg) ([], [])).2 := by
  simp only [crawl_with_intelligence_log]
  split <;> rfl

/-- C7 amended: no configured total-source count bounds the fetches; the
only bounds are structural — at most 421 fetches per seed pattern (1 seed +
20 links + 20 times 20 grandchild links) and at most 2105 per crawl run
(five patterns). -/
theorem fetch_count_structural_bound (env : Env) (cfg : CrawlerConfig) (now : Date) :
    (∀ start_url depth,
      (discover_ir_links env cfg now start_url depth).2.length ≤ 421) ∧
    (crawl_with_intelligence_log env cfg now).2.length ≤ 2105 := by
  constructor
  · intro u d
    exact discoverF_log_length env cfg now 3 u d
  · rw [crawl_log_shape]
    exact crawlLoop_log_length env cfg now (ir_patterns cfg) ([], [])

/-- C7 counterexample: a run in which the crawler issues GETs for 13
distinct URLs (the seed plus 12 keyword-matching child links, all of which
fail), exceeding the configured MAX_SOURCES = 10 of streamlit_app_clean.py —
which no code ever reads. -/
theorem fetch_count_exceeds_configured_max_sources :
    10 < ((crawl_with_intelligence_log c7Env c7Cfg ⟨2025, 1, 1⟩).2.map Prod.fst).dedup.length := by
  decide

/-- An item surviving deduplication has a url that was not among the
already-seen keys. -/
theorem dedupAux_mem_not_seen :
    ∀ (l : List Item) (seen : List String) (it : Item),
      it ∈ dedupAux seen l → seen.contains it.url = false := by
  intro l
  induction l with
  | nil => intro seen it h; cases h
  | cons x rest ih =>
    intro seen it h
    simp only [dedupAux] at h
    split at h
    · exact ih seen it h
    · rename_i hx
      rw [Bool.not_eq_true] at hx
      rcases List.mem_cons.mp h with rfl | h2
      · exact hx
      · have h3 := ih (x.url :: seen) it h2
        rw [List.contains_cons] at h3
        exact (Bool.or_eq_false_iff.mp h3).2

/-- The urls surviving deduplication are pairwise distinct. -/
theorem dedupAux_pairwise :
    ∀ (l : List Item) (seen : List String),
      (dedupAux seen l).Pairwise (fun a b => a.url ≠ b.url) := by
  intro l
  induction l with
  | nil => intro seen; exact List.Pairwise.nil
  | cons x rest ih =>
    intro seen
    simp only [dedupAux]
    split
    · exact ih seen
    · refine List.Pairwise.cons ?_ (ih (x.url :: seen))
      intro b hb
      have h3 := dedupAux_mem_not_seen rest (x.url :: seen) b hb
      rw [List.contains_cons] at h3
      have h4 : (b.url == x.url) = false := (Bool.or_eq_false_iff.mp h3).1
      intro heq
      rw [heq] at h4
      simp at h4

/-- Deduplication keeps, for each url, exactly the first item of the input
list carrying that url (the source dict is only written on first sight of a
key). -/
theorem dedupAux_first :
    ∀ (l : List Item) (seen : List String) (it : Item), it ∈ dedupAux seen l →
      l.find? (fun x => x.url == it.url) = some it := by
  intro l
  induction l with
  | nil => intro seen it h; cases h
  | cons x rest ih =>
    intro seen it h
    have hns := dedupAux_mem_not_seen (x :: rest) seen it h
    simp only [dedupAux] at h
    split at h
    · rename_i hx
      have hne : (x.url == it.url) = false := by
        rw [beq_eq_false_iff_ne]
        intro hbe
        rw [hbe] at hx
        rw [hx] at hns
        cases hns
      simp only [List.find?_cons, hne]
      exact ih seen it h
    · rcases List.mem_cons.mp h with rfl | h2
      · exact List.find?_cons_of_pos _ (by simp)
      · have h3 := dedupAux_mem_not_seen rest (x.url :: seen) it h2
        rw [List.contains_cons] at h3
        have h4 : (it.url == x.url) = false := (Bool.or_eq_false_iff.mp h3).1
        have hne : (x.url == it.url) = false := by
          rw [beq_eq_false_iff_ne]
          rw [beq_eq_false_iff_ne] at h4
          exact fun hbe => h4 hbe.symm
        simp only [List.find?_cons, hne]
        exact ih _ it h2

/-- The sort step leaves importance scores in descending order. -/
theorem sortByImportanceDesc_sorted (l : List Item) :
    (sortByImportanceDesc l).Pairwise (fun a b => b.importance ≤ a.importance) := by
  have h := @List.sorted_mergeSort Item (fun a b => decide (b.importance ≤ a.importance))
    (fun a b c hab hbc => by
      simp only [decide_eq_true_eq] at hab hbc ⊢
      omega)
    (fun a b => by
      simp only [Bool.or_eq_true, decide_eq_true_eq]
      omega)
    l
  exact h.imp (fun hab => of_decide_eq_true hab)

/-- The sort step preserves pairwise-distinct urls (it permutes the list). -/
theorem sortByImportanceDesc_pairwise_ne (l : List Item)
    (h : l.Pairwise (fun a b => a.url ≠ b.url)) :
    (sortByImportanceDesc l).Pairwise (fun a b => a.url ≠ b.url) :=
  (List.Perm.pairwise_iff (fun hxy => hxy.symm) (List.mergeSort_perm l _)).mpr h

/-- The crawl result is either empty or the top five of the sorted
deduplication of some accumulated list. -/
theorem crawl_shape (env : Env) (cfg : CrawlerConfig) (now : Date) :
    crawl_with_intelligence env cfg now = [] ∨
    ∃ l, crawl_with_intelligence env cfg now =
      (sortByImportanceDesc (dedupByUrl l)).take 5 := by
  simp only [crawl_with_intelligence, crawl_with_intelligence_log]
  split
  · exact Or.inl rfl
  · exact Or.inr ⟨_, rfl⟩

/-- C1 (confirmed): every crawl_with_intelligence result has pairwise
distinct urls, is sorted by importance score in descending order, and holds
at most five items. -/
theorem crawl_result_dedup_sorted_top5 (env : Env) (cfg : CrawlerConfig) (now : Date) :
    (crawl_with_intelligence env cfg now).Pairwise (fun a b => a.url ≠ b.url) ∧
    (crawl_with_intelligence env cfg now).Pairwise (fun a b => b.importance ≤ a.importance) ∧
    (crawl_with_intelligence env cfg now).length ≤ 5 := by
  rcases crawl_shape env cfg now with h | ⟨l, h⟩ <;> rw [h]
  · exact ⟨List.Pairwise.nil, List.Pairwise.nil, by simp⟩
  · refine ⟨?_, ?_, ?_⟩
    · exact List.Pairwise.sublist (List.take_sublist 5 _)
        (sortByImportanceDesc_pairwise_ne _ (dedupAux_pairwise l []))
    · exact List.Pairwise.sublist (List.take_sublist 5 _)
        (sortByImportanceDesc_sorted _)
    · exact List.length_take_le 5 _

/-- C2 amended: deduplication keeps the first-seen item for each url (not
the last), and within one discover run two collected items with the same url
are in fact identical, because every item is determined by the page the
environment serves at its url. -/
theorem dedup_first_seen_and_run_items_unique (env : Env) (cfg : CrawlerConfig) (now : Date) :
    (∀ (l : List Item) (it : Item), it ∈ dedupByUrl l →
      l.find? (fun x => x.url == it.url) = some it) ∧
    (∀ start_url depth it1 it2,
      it1 ∈ (discover_ir_links env cfg now start_url depth).1 →
      it2 ∈ (discover_ir_links env cfg now start_url depth).1 →
      it1.url = it2.url → it1 = it2) := by
  constructor
  · exact fun l it h => dedupAux_first l [] it h
  · intro u d it1 it2 h1 h2 hurl
    obtain ⟨p1, hf1, he1⟩ := discoverF_items_spec env cfg now 3 u d it1 h1
    obtain ⟨p2, hf2, he2⟩ := discoverF_items_spec env cfg now 3 u d it2 h2
    rw [hurl] at hf1
    rw [hf2] at hf1
    injection hf1 with hp
    rw [he1, he2, hurl, hp]

/-- C2 amended witness: the theorem applied at a concrete two-item list with
a duplicated url and at a concrete run. -/
theorem dedup_first_seen_witness :
    [w2a, w2b].find? (fun x => x.url == w2a.url) = some w2a ∧
    mkItem "https://x.jp/" w2Page ⟨2025, 1, 1⟩ = mkItem "https://x.jp/" w2Page ⟨2025, 1, 1⟩ :=
  ⟨(dedup_first_seen_and_run_items_unique w2Env w2Cfg ⟨2025, 1, 1⟩).1 [w2a, w2b] w2a (by decide),
   (dedup_first_seen_and_run_items_unique w2Env w2Cfg ⟨2025, 1, 1⟩).2 "https://x.jp/" 0
     (mkItem "https://x.jp/" w2Page ⟨2025, 1, 1⟩) (mkItem "https://x.jp/" w2Page ⟨2025, 1, 1⟩)
     (by decide) (by decide) rfl⟩

/-- C2 counterexample: a URL reachable through two different anchor paths is
fetched twice in a single run — discover_ir_links keeps no visited set, so
the claim "that URL is fetched at most once during the run" is false. -/
theorem same_url_fetched_twice :
    ((discover_ir_links c2Env c2Cfg ⟨2025, 1, 1⟩ "https://d.jp/ir/" 0).2.map Prod.fst).count
      "https://d.jp/ir/a" = 2 := by decide

/-- C6 (confirmed): a result whose lower-cased title or snippet contains a
disqualifying recruiting term is absent from the output of both filter
methods, whatever score it would have got — the exclusion test runs before
any scoring. -/
theorem filters_exclude_disqualified (results : List SearchResult) (company_name : String)
    (r : SearchResult) (s : Nat) :
    ((∃ k ∈ rel_exclude_keywords,
        strContains (lowerStr r.title) k = true ∨ strContains (lowerStr r.snippet) k = true) →
      (r, s) ∉ filter_relevant_results results company_name) ∧
    ((∃ k ∈ ir_exclude_keywords,
        strContains (lowerStr r.title) k = true ∨ strContains (lowerStr r.snippet) k = true) →
      (r, s) ∉ filter_ir_documents results company_name) := by
  constructor
  · rintro ⟨k, hk, hor⟩ hmem
    simp only [filter_relevant_results, List.mem_mergeSort, List.mem_filterMap] at hmem
    obtain ⟨a, _, heq⟩ := hmem
    split at heq
    · cases heq
    rename_i hno
    split at heq
    · cases heq
    split at heq
    · injection heq with heq1
      injection heq1 with ha hs
      subst ha
      refine hno (List.any_eq_true.mpr ⟨k, hk, ?_⟩)
      simp only [Bool.or_eq_true]
      rcases hor with h | h
      · exact Or.inl h
      · exact Or.inr h
    · cases heq
  · rintro ⟨k, hk, hor⟩ hmem
    simp only [filter_ir_documents, List.mem_mergeSort, List.mem_filterMap] at hmem
    obtain ⟨a, _, heq⟩ := hmem
    split at heq
    · cases heq
    rename_i hno
    split at heq
    · cases heq
    split at heq
    · injection heq with heq1
      injection heq1 with ha hs
      subst ha
      refine hno (List.any_eq_true.mpr ⟨k, hk, ?_⟩)
      simp only [Bool.or_eq_true]
      rcases hor with h | h
      · exact Or.inl h
      · exact Or.inr h
    · cases heq

/-- C6 witness: the theorem applied to a concrete result whose title carries
the recruiting term 求人 and whose keyword overlap would otherwise score
highly in both filters. -/
theorem filters_exclude_disqualified_witness :
    (c6r, 8) ∉ filter_relevant_results [c6r] "テスト株式会社" ∧
    (c6r, 8) ∉ filter_ir_documents [c6r] "テスト株式会社" :=
  ⟨(filters_exclude_disqualified [c6r] "テスト株式会社" c6r 8).1
      ⟨"求人", by decide, Or.inl (by decide)⟩,
   (filters_exclude_disqualified [c6r] "テスト株式会社" c6r 8).2
      ⟨"求人", by decide, Or.inl (by decide)⟩⟩


/-- Fuel adequacy: discoverF does not depend on the fuel as soon as it covers
the remaining recursion depth (child calls only happen below the hard
depth-2 cutoff of the source), so the fuel-3 instance used by
discover_ir_links computes the source's recursion exactly at every starting
depth. -/
theorem discoverF_fuel_irrelevant (env : Env) (cfg : CrawlerConfig) (now : Date) :
    ∀ (f1 f2 : Nat) (start_url : String) (depth : Nat),
      3 - min depth 2 ≤ f1 → 3 - min depth 2 ≤ f2 →
      discoverF env cfg now f1 start_url depth = discoverF env cfg now f2 start_url depth := by
  intro f1
  induction f1 with
  | zero => intro f2 u d h1 h2; omega
  | succ f ih =>
    intro f2 u d h1 h2
    cases f2 with
    | zero => omega
    | succ g =>
      simp only [discoverF]
      split
      · rfl
      · split
        · rfl
        · rename_i page henv
          by_cases hd2 : d < 2
          · rw [if_pos hd2, if_pos hd2]
            have hfun : (fun href => discoverF env cfg now f (env.join (normalizeUrl u) href) (d + 1)) =
                (fun href => discoverF env cfg now g (env.join (normalizeUrl u) href) (d + 1)) := by
              funext href
              exact ih g _ (d + 1) (by omega) (by omega)
            rw [hfun]
          · rw [if_neg hd2, if_neg hd2]

/-- Any fuel of at least 3 computes discover_ir_links. -/
theorem discover_ir_links_fuel_stable (env : Env) (cfg : CrawlerConfig) (now : Date)
    (f : Nat) (start_url : String) (depth : Nat) (hf : 3 ≤ f) :
    discoverF env cfg now f start_url depth = discover_ir_links env cfg now start_url depth :=
  discoverF_fuel_irrelevant env cfg now f 3 start_url depth (by omega) (by omega)
